import Mathlib

/-
Verification of the improver CLI composition engine against its
natural-language specification.

Shallow embedding of:
  src/lib/improver/cli/__init__.py        (ObjectAsStr, maybe_coerce_with,
                                           with_output, unbracket, execute_command)
  src/lib/improver/cli/clize_framework.py (preprocess_command)
  src/lib/improver/cli/nowcast_extrapolate.py (process, velocity guard)

Python values flowing through the evaluator are modelled by the inductive
type PyObj; Python exceptions by Except; side effects (saving files,
dispatcher invocations) by explicit effect lists.  Stdout printing (the
verbose echo) is not modelled: it carries no data the claims depend on.
-/

set_option maxHeartbeats 1000000
set_option linter.unusedVariables false

namespace Improver

/-- Model of the Python values the CLI evaluator manipulates: plain
strings, ObjectAsStr carriers (a str subclass holding `original_object`),
lists (also standing for tuples), and other opaque objects identified by
a numeric id. -/
inductive PyObj where
  | str (s : String)
  | objAsStr (name : String) (original : PyObj)
  | list (items : List PyObj)
  | obj (id : Nat)

/-- Python `isinstance(x, str)`: true for plain strings and for ObjectAsStr
carriers (ObjectAsStr subclasses str). -/
def PyObj.isStr : PyObj → Bool
  | .str _ => true
  | .objAsStr _ _ => true
  | _ => false

/-- Python `isinstance(x, ObjectAsStr)`. -/
def PyObj.isCarrier : PyObj → Bool
  | .objAsStr _ _ => true
  | _ => false

/-- Python `x.original_object` attribute lookup: present exactly on
ObjectAsStr carriers. -/
def PyObj.original_object? : PyObj → Option PyObj
  | .objAsStr _ o => some o
  | _ => none

/-- Python `type(obj).__module__ + '.' + type(obj).__name__` for the model
types. -/
def typeName : PyObj → String
  | .str _ => "builtins.str"
  | .objAsStr _ _ => "improver.cli.ObjectAsStr"
  | .list _ => "builtins.list"
  | .obj _ => "builtins.object"

/-- Python `hash(obj)` falling back to `id(obj)`: a process-local identity
value, modelled abstractly (its exact value never matters to the claims,
only that object2name produces some bracket-free token). -/
def pyId : PyObj → Nat
  | .str s => s.length
  | .objAsStr n _ => n.length
  | .list ts => ts.length
  | .obj i => i

/-- ObjectAsStr.object2name: `'<%s.%s@%i>' % (cls.__module__, cls.__name__, obj_id)`. -/
def object2name (o : PyObj) : String :=
  "<" ++ typeName o ++ "@" ++ toString (pyId o) ++ ">"

/-- ObjectAsStr.__new__: if the argument is already a carrier it is returned
itself (pass object through if already wrapped); otherwise a new carrier is
built whose textual value is `name` (defaulting to object2name) and whose
original_object is the argument. -/
def ObjectAsStr.new (obj : PyObj) (name : Option String) : PyObj :=
  match obj with
  | .objAsStr n o => .objAsStr n o
  | _ => .objAsStr (name.getD (object2name obj)) obj

/-- maybe_coerce_with: `obj = getattr(obj, 'original_object', obj);
return convert(obj, **kwargs) if isinstance(obj, str) else obj`. -/
def maybe_coerce_with (convert : PyObj → PyObj) (obj : PyObj) : PyObj :=
  let o := match obj with
    | .objAsStr _ orig => orig
    | x => x
  if o.isStr then convert o else o

/-- Result of a with_output call: the list of (object, path) pairs passed to
save_netcdf, and the value returned to the caller (none models Python None). -/
structure SaveEffect where
  saved : List (PyObj × String)
  ret : Option PyObj

/-- Python truthiness of the `output` keyword argument (default None; an
empty string is also falsy). -/
def pyTruthy : Option String → Bool
  | none => false
  | some s => s != ""

/-- with_output decorator body: run the wrapped command, then
`if output: save_netcdf(result, output); return` else `return result`. -/
def with_output (wrapped : List PyObj → PyObj) (args : List PyObj)
    (output : Option String) : SaveEffect :=
  let result := wrapped args
  if pyTruthy output then { saved := [(result, output.getD "")], ret := none }
  else { saved := [], ret := some result }

/-- Python `s.startswith(pre)` on the underlying character lists. -/
def charsStartsWith : List Char → List Char → Bool
  | _, [] => true
  | [], _ :: _ => false
  | a :: as, b :: bs => a = b && charsStartsWith as bs

/-- Python `arg.startswith(outopt)`. -/
def pyStartsWith (s pre : String) : Bool := charsStartsWith s.data pre.data

/-- Split a character list at the first '=', returning the parts before and
after it, or none when no '=' occurs. -/
def splitFirstEq : List Char → Option (List Char × List Char)
  | [] => none
  | c :: cs =>
      if c = '=' then some ([], cs)
      else match splitFirstEq cs with
        | none => none
        | some (pre, post) => some (c :: pre, post)

/-- Python `arg.partition('=')`: (head, separator, tail) with separator ''
when '=' does not occur. -/
def pyPartitionEq (s : String) : String × String × String :=
  match splitFirstEq s.data with
  | none => (s, "", "")
  | some (pre, post) => (String.mk pre, "=", String.mk post)

/-- Loop body of clize_framework.preprocess_command: `for i, arg in
enumerate(args, 1)`, so the counter `i` of the element currently examined is
its 0-based index plus one; on the first argument starting with '--output',
take the part after '=' if present, otherwise `args[i + 1]` (with IndexError
giving ''), and stop.  The first parameter keeps the whole original args for
the `args[i + 1]` lookup. -/
def findPostArgsFrom (args : List String) : List String → Nat → List String
  | [], _ => []
  | arg :: rest, i =>
      if pyStartsWith arg "--output" then
        let p := pyPartitionEq arg
        ["--output", if p.2.1 = "" then ((args.get? (i + 1)).getD "") else p.2.2]
      else findPostArgsFrom args rest (i + 1)

/-- clize_framework.preprocess_command: returns the command, the untouched
args, and post_args holding the extracted '--output' destination (empty when
no argument starts with '--output'). -/
def preprocess_command (progname command : String) (args : List String) :
    String × List String × List String :=
  (command, args, findPostArgsFrom args args 1)

/-- Loop of unbracket: `outargs` is the frame under construction, `stack`
the saved outer frames (head = innermost), `i` the position of the next
token.  A '[' pushes the current frame and starts an empty one; a ']' with
an empty stack is a mismatch at position i, otherwise the finished frame is
appended to the saved top frame which becomes current again; any other
token is appended as a string leaf.  A non-empty stack at the end is a
mismatch at position len(args).  Errors carry the offending position. -/
def unbracketAux : List String → Nat → List PyObj → List (List PyObj) →
    Except Nat (List PyObj)
  | [], i, outargs, stack =>
      match stack with
      | [] => .ok outargs
      | _ :: _ => .error i
  | a :: rest, i, outargs, stack =>
      if a = "[" then unbracketAux rest (i + 1) [] (outargs :: stack)
      else if a = "]" then
        match stack with
        | [] => .error i
        | top :: stackTail =>
            unbracketAux rest (i + 1) (top ++ [PyObj.list outargs]) stackTail
      else unbracketAux rest (i + 1) (outargs ++ [PyObj.str a]) stack

/-- unbracket: convert input list with bracketed items into nested lists. -/
def unbracket (args : List String) : Except Nat (List PyObj) :=
  unbracketAux args 0 [] []

/-- Normalization applied by execute_command to each argument after nested
evaluation: `if not isinstance(arg, str): arg = ObjectAsStr(arg)`. -/
def wrapIfNotStr (x : PyObj) : PyObj :=
  if x.isStr then x else ObjectAsStr.new x none

/-- Per-element pass of execute_command over its argument list, returning
the normalized arguments together with the ghost log of dispatcher
invocations (each recorded as the argument list passed), in temporal order.
A list element is evaluated recursively — in dry-run mode it stays the
processed list, otherwise it becomes the dispatcher's result — and is then
wrapped by ObjectAsStr unless it is already a str.  The dispatcher absorbs
the constant progname argument. -/
def processArgs (disp : List PyObj → PyObj) (dry : Bool) :
    List PyObj → List PyObj × List (List PyObj)
  | [] => ([], [])
  | PyObj.list ts :: rest =>
      let sub := processArgs disp dry ts
      let arg := if dry then wrapIfNotStr (.list sub.1) else wrapIfNotStr (disp sub.1)
      let subLog := if dry then sub.2 else sub.2 ++ [sub.1]
      let r := processArgs disp dry rest
      (arg :: r.1, subLog ++ r.2)
  | a :: rest =>
      let r := processArgs disp dry rest
      (wrapIfNotStr a :: r.1, r.2)

/-- execute_command: normalize the arguments (recursing into nested lists),
then either return them as the result (dry run) or invoke the dispatcher on
them.  The second component is the ghost log of dispatcher invocations. -/
def execute_command (disp : List PyObj → PyObj) (dry : Bool)
    (args : List PyObj) : PyObj × List (List PyObj) :=
  let p := processArgs disp dry args
  if dry then (.list p.1, p.2) else (disp p.1, p.2 ++ [p.1])

/-- Errors raised by nowcast_extrapolate.process: mixing the two velocity
specifications, or an accumulation fidelity that does not divide the
maximum lead time. -/
inductive NowcastError where
  | mixedVelocities
  | badFidelity (lead_time_interval accumulation_fidelity : Nat)

/-- Message text of each nowcast_extrapolate.process ValueError. -/
def NowcastError.message : NowcastError → String
  | .mixedVelocities =>
      "Cannot mix advection component velocities with speed and direction"
  | .badFidelity lti af =>
      "The specified lead_time_interval (" ++ toString lti ++
        ") is not cleanly divisible by the specified accumulation_fidelity (" ++
        toString af ++ "). As a result the lead_time_interval cannot be" ++
        " constructed from accumulation cubes at this fidelity."

/-- Continuation of nowcast_extrapolate.process after the velocity guard:
the accumulation-fidelity divisibility check, then the extrapolation
itself.  The scientific collaborators (outside src/) are modelled as named
steps in a trace; `np.modf(max_lead_time / accumulation_fidelity)` having
zero fractional part is divisibility. -/
def nowcastAfterVelocity (steps : List String)
    (max_lead_time lead_time_interval accumulation_fidelity : Nat) :
    List String × Except NowcastError Unit :=
  if accumulation_fidelity > 0 && !(max_lead_time % accumulation_fidelity == 0) then
    (steps, .error (.badFidelity lead_time_interval accumulation_fidelity))
  else (steps ++ ["CreateExtrapolationForecast"], .ok ())

/-- nowcast_extrapolate.process: each cube argument is modelled by its
truthiness (true = supplied).  The guard is the source's
`if (speed_cube and direction_cube) and not (u_cube or v_cube): resolve
elif u_cube and v_cube and not (speed_cube or direction_cube): pass
else: raise ValueError(...)`; the first component traces which
collaborator plugins run. -/
def nowcast_process (u_cube v_cube speed_cube direction_cube : Bool)
    (max_lead_time lead_time_interval accumulation_fidelity : Nat) :
    List String × Except NowcastError Unit :=
  if (speed_cube && direction_cube) && !(u_cube || v_cube) then
    nowcastAfterVelocity ["ResolveWindComponents"]
      max_lead_time lead_time_interval accumulation_fidelity
  else if (u_cube && v_cube) && !(speed_cube || direction_cube) then
    nowcastAfterVelocity [] max_lead_time lead_time_interval accumulation_fidelity
  else ([], .error .mixedVelocities)

/-! Specification-side definitions, written from the spec's words to state
round trips and refinement properties against the code definitions above. -/

/-- Flattening traversal of a nested argument list that re-emits a '[' and
']' around each nested list: the exact inverse of the bracket parse. -/
def flattenKeep : List PyObj → List String
  | [] => []
  | .str s :: rest => s :: flattenKeep rest
  | .list ts :: rest => "[" :: (flattenKeep ts ++ "]" :: flattenKeep rest)
  | .objAsStr n _ :: rest => n :: flattenKeep rest
  | .obj _ :: rest => flattenKeep rest

/-- Flattening traversal of a nested argument list that drops the bracket
markers, keeping the leaf tokens in order. -/
def flattenDrop : List PyObj → List String
  | [] => []
  | .str s :: rest => s :: flattenDrop rest
  | .list ts :: rest => flattenDrop ts ++ flattenDrop rest
  | .objAsStr n _ :: rest => n :: flattenDrop rest
  | .obj _ :: rest => flattenDrop rest

/-- The original token list with the bracket markers removed. -/
def removeBrackets : List String → List String
  | [] => []
  | t :: rest =>
      if t = "[" ∨ t = "]" then removeBrackets rest else t :: removeBrackets rest

/-- Tokens of the unbracket loop state already consumed, reconstructed with
brackets: each saved outer frame contributes its tokens and the '[' that
pushed it, the current frame comes last. -/
def stackCtx : List (List PyObj) → List PyObj → List String
  | [], cur => flattenKeep cur
  | top :: rest, cur => stackCtx rest top ++ "[" :: flattenKeep cur

/-- Non-bracket tokens of the unbracket loop state already consumed. -/
def stackCtxD : List (List PyObj) → List PyObj → List String
  | [], cur => flattenDrop cur
  | top :: rest, cur => stackCtxD rest top ++ flattenDrop cur

/-- Number of '[' tokens. -/
def opens : List String → Nat
  | [] => 0
  | t :: rest => (if t = "[" then 1 else 0) + opens rest

/-- Number of ']' tokens. -/
def closes : List String → Nat
  | [] => 0
  | t :: rest => (if t = "]" then 1 else 0) + closes rest

/-- Balanced brackets, stated over the token list alone: no prefix closes
more brackets than it opened, and the whole list closes exactly as many as
it opened. -/
def Balanced (ts : List String) : Prop :=
  (∀ k, closes (ts.take k) ≤ opens (ts.take k)) ∧ closes ts = opens ts

/-- Fully resolved argument list, per the spec of the Composition
Evaluator: each nested list is replaced by the dispatcher's result on its
own resolved arguments (carrier-wrapped unless a str), every other element
is carrier-wrapped unless already a str. -/
def resolveList (disp : List PyObj → PyObj) : List PyObj → List PyObj
  | [] => []
  | PyObj.list ts :: rest =>
      wrapIfNotStr (disp (resolveList disp ts)) :: resolveList disp rest
  | a :: rest => wrapIfNotStr a :: resolveList disp rest

/-- Expected order of dispatcher invocations for one argument list: for
each element in order, first the invocations of its own nested
sub-invocations, then its own; the enclosing invocation itself is appended
by execute_command after this list. -/
def invocationLog (disp : List PyObj → PyObj) : List PyObj → List (List PyObj)
  | [] => []
  | PyObj.list ts :: rest =>
      (invocationLog disp ts ++ [resolveList disp ts]) ++ invocationLog disp rest
  | _ :: rest => invocationLog disp rest

/-- Dry-run echo of an argument list, per the spec: nested lists stay
literal (recursively echoed) structures wrapped as carriers, nothing is
dispatched; other non-str elements are carrier-wrapped. -/
def dryEcho : List PyObj → List PyObj
  | [] => []
  | PyObj.list ts :: rest => wrapIfNotStr (PyObj.list (dryEcho ts)) :: dryEcho rest
  | a :: rest => wrapIfNotStr a :: dryEcho rest

/-- Exactly one of the two velocity specifications of
nowcast_extrapolate.process is supplied: speed and direction with both
components absent, or both components with speed and direction absent. -/
def exactlyOneVelocitySpec (u v s d : Bool) : Prop :=
  (s = true ∧ d = true ∧ u = false ∧ v = false) ∨
    (u = true ∧ v = true ∧ s = false ∧ d = false)

/-! Helper lemmas about the flattening traversals and the unbracket loop. -/

theorem flattenKeep_append (xs ys : List PyObj) :
    flattenKeep (xs ++ ys) = flattenKeep xs ++ flattenKeep ys := by
  induction xs with
  | nil => simp [flattenKeep]
  | cons a rest ih => cases a <;> simp [flattenKeep, ih]

theorem flattenDrop_append (xs ys : List PyObj) :
    flattenDrop (xs ++ ys) = flattenDrop xs ++ flattenDrop ys := by
  induction xs with
  | nil => simp [flattenDrop]
  | cons a rest ih => cases a <;> simp [flattenDrop, ih]

theorem stackCtx_push_str (stack : List (List PyObj)) (cur : List PyObj) (a : String) :
    stackCtx stack (cur ++ [PyObj.str a]) = stackCtx stack cur ++ [a] := by
  cases stack <;>
    simp [stackCtx, flattenKeep_append, flattenKeep, List.append_assoc]

theorem stackCtx_push_list (stack : List (List PyObj)) (cur ts : List PyObj) :
    stackCtx stack (cur ++ [PyObj.list ts])
      = stackCtx stack cur ++ "[" :: (flattenKeep ts ++ ["]"]) := by
  cases stack <;>
    simp [stackCtx, flattenKeep_append, flattenKeep, List.append_assoc]

theorem stackCtxD_push_str (stack : List (List PyObj)) (cur : List PyObj) (a : String) :
    stackCtxD stack (cur ++ [PyObj.str a]) = stackCtxD stack cur ++ [a] := by
  cases stack <;>
    simp [stackCtxD, flattenDrop_append, flattenDrop, List.append_assoc]

theorem stackCtxD_push_list (stack : List (List PyObj)) (cur ts : List PyObj) :
    stackCtxD stack (cur ++ [PyObj.list ts])
      = stackCtxD stack cur ++ flattenDrop ts := by
  cases stack <;>
    simp [stackCtxD, flattenDrop_append, flattenDrop, List.append_assoc]

theorem unbracketAux_flattenKeep :
    ∀ (rest : List String) (i : Nat) (outargs : List PyObj)
      (stack : List (List PyObj)) (items : List PyObj),
      unbracketAux rest i outargs stack = .ok items →
      flattenKeep items = stackCtx stack outargs ++ rest := by
  intro rest
  induction rest with
  | nil =>
      intro i outargs stack items h
      cases stack with
      | nil =>
          simp [unbracketAux] at h
          subst h
          simp [stackCtx]
      | cons top stackTail => simp [unbracketAux] at h
  | cons a rest ih =>
      intro i outargs stack items h
      by_cases ha1 : a = "["
      · subst ha1
        simp only [unbracketAux, if_true, String.reduceEq, reduceIte] at h
        have := ih _ _ _ _ h
        simpa [stackCtx, flattenKeep, List.append_assoc] using this
      · by_cases ha2 : a = "]"
        · subst ha2
          simp only [unbracketAux, if_true, String.reduceEq, reduceIte] at h
          cases stack with
          | nil => simp at h
          | cons top stackTail =>
              have := ih _ _ _ _ h
              rw [this, stackCtx_push_list]
              simp [stackCtx, List.append_assoc]
        · rw [unbracketAux.eq_def] at h
          simp only [if_neg ha1, if_neg ha2] at h
          have := ih _ _ _ _ h
          rw [this, stackCtx_push_str]
          simp [List.append_assoc]

theorem unbracketAux_flattenDrop :
    ∀ (rest : List String) (i : Nat) (outargs : List PyObj)
      (stack : List (List PyObj)) (items : List PyObj),
      unbracketAux rest i outargs stack = .ok items →
      flattenDrop items = stackCtxD stack outargs ++ removeBrackets rest := by
  intro rest
  induction rest with
  | nil =>
      intro i outargs stack items h
      cases stack with
      | nil =>
          simp [unbracketAux] at h
          subst h
          simp [stackCtxD, removeBrackets]
      | cons top stackTail => simp [unbracketAux] at h
  | cons a rest ih =>
      intro i outargs stack items h
      by_cases ha1 : a = "["
      · subst ha1
        simp only [unbracketAux, if_true, String.reduceEq, reduceIte] at h
        have := ih _ _ _ _ h
        rw [this]
        simp [stackCtxD, flattenDrop, removeBrackets, List.append_assoc]
      · by_cases ha2 : a = "]"
        · subst ha2
          simp only [unbracketAux, if_true, String.reduceEq, reduceIte] at h
          cases stack with
          | nil => simp at h
          | cons top stackTail =>
              have := ih _ _ _ _ h
              rw [this, stackCtxD_push_list]
              simp [stackCtxD, removeBrackets, List.append_assoc]
        · rw [unbracketAux.eq_def] at h
          simp only [if_neg ha1, if_neg ha2] at h
          have := ih _ _ _ _ h
          rw [this, stackCtxD_push_str]
          simp [removeBrackets, ha1, ha2, List.append_assoc]

theorem unbracketAux_ok :
    ∀ (rest : List String) (outargs : List PyObj)
      (stack : List (List PyObj)) (i : Nat),
      (∀ k, closes (rest.take k) ≤ stack.length + opens (rest.take k)) →
      closes rest = stack.length + opens rest →
      ∃ items, unbracketAux rest i outargs stack = .ok items := by
  intro rest
  induction rest with
  | nil =>
      intro outargs stack i hpre htot
      simp [closes, opens] at htot
      have hstack : stack = [] := List.length_eq_zero.mp htot.symm
      subst hstack
      exact ⟨outargs, by simp [unbracketAux]⟩
  | cons a rest ih =>
      intro outargs stack i hpre htot
      by_cases ha1 : a = "["
      · subst ha1
        rw [unbracketAux.eq_def]
        simp only [if_pos rfl]
        apply ih
        · intro k
          have h := hpre (k + 1)
          simp [List.take_succ_cons, closes, opens] at h ⊢
          omega
        · simp [closes, opens] at htot ⊢
          omega
      · by_cases ha2 : a = "]"
        · subst ha2
          have hlen : 1 ≤ stack.length := by
            have h := hpre 1
            simp [closes, opens] at h
            omega
          cases stack with
          | nil => simp at hlen
          | cons top stackTail =>
              rw [unbracketAux.eq_def]
              simp only [if_neg ha1, if_pos rfl]
              apply ih
              · intro k
                have h := hpre (k + 1)
                simp [List.take_succ_cons, closes, opens] at h ⊢
                omega
              · simp [closes, opens] at htot ⊢
                omega
        · rw [unbracketAux.eq_def]
          simp only [if_neg ha1, if_neg ha2]
          apply ih
          · intro k
            have h := hpre (k + 1)
            simp [List.take_succ_cons, closes, opens, ha1, ha2] at h ⊢
            omega
          · simp [closes, opens, ha1, ha2] at htot ⊢
            omega

theorem unbracketAux_closeErr :
    ∀ (rest : List String) (j : Nat) (outargs : List PyObj)
      (stack : List (List PyObj)) (i : Nat),
      rest[j]? = some "]" →
      (∀ k, k ≤ j → closes (rest.take k) ≤ stack.length + opens (rest.take k)) →
      closes (rest.take j) = stack.length + opens (rest.take j) →
      unbracketAux rest i outargs stack = .error (i + j) := by
  intro rest
  induction rest with
  | nil => intro j outargs stack i hj; simp at hj
  | cons a rest ih =>
      intro j outargs stack i hj hpre hj0
      cases j with
      | zero =>
          simp at hj
          subst hj
          simp [closes, opens] at hj0
          have hstack : stack = [] := List.length_eq_zero.mp hj0.symm
          subst hstack
          simp [unbracketAux]
      | succ j =>
          simp only [List.getElem?_cons_succ] at hj
          by_cases ha1 : a = "["
          · subst ha1
            have heq : unbracketAux ("[" :: rest) i outargs stack
                = unbracketAux rest (i + 1) [] (outargs :: stack) := by
              simp [unbracketAux]
            rw [heq, ih j [] (outargs :: stack) (i + 1) hj
              (by
                intro k hk
                have h := hpre (k + 1) (by omega)
                simp [List.take_succ_cons, closes, opens] at h ⊢
                omega)
              (by
                have h := hj0
                simp [List.take_succ_cons, closes, opens] at h ⊢
                omega)]
            congr 1
            omega
          · by_cases ha2 : a = "]"
            · subst ha2
              have hlen : 1 ≤ stack.length := by
                have h := hpre 1 (by omega)
                simp [closes, opens] at h
                omega
              cases stack with
              | nil => simp at hlen
              | cons top stackTail =>
                  have heq : unbracketAux ("]" :: rest) i outargs (top :: stackTail)
                      = unbracketAux rest (i + 1) (top ++ [PyObj.list outargs]) stackTail := by
                    simp [unbracketAux]
                  rw [heq, ih j (top ++ [PyObj.list outargs]) stackTail (i + 1) hj
                    (by
                      intro k hk
                      have h := hpre (k + 1) (by omega)
                      simp [List.take_succ_cons, closes, opens] at h ⊢
                      omega)
                    (by
                      have h := hj0
                      simp [List.take_succ_cons, closes, opens] at h ⊢
                      omega)]
                  congr 1
                  omega
            · have heq : unbracketAux (a :: rest) i outargs stack
                  = unbracketAux rest (i + 1) (outargs ++ [PyObj.str a]) stack := by
                simp [unbracketAux, ha1, ha2]
              rw [heq, ih j (outargs ++ [PyObj.str a]) stack (i + 1) hj
                (by
                  intro k hk
                  have h := hpre (k + 1) (by omega)
                  simp [List.take_succ_cons, closes, opens, ha1, ha2] at h ⊢
                  omega)
                (by
                  have h := hj0
                  simp [List.take_succ_cons, closes, opens, ha1, ha2] at h ⊢
                  omega)]
              congr 1
              omega

theorem unbracketAux_openErr :
    ∀ (rest : List String) (outargs : List PyObj)
      (stack : List (List PyObj)) (i : Nat),
      (∀ k, closes (rest.take k) ≤ stack.length + opens (rest.take k)) →
      closes rest < stack.length + opens rest →
      unbracketAux rest i outargs stack = .error (i + rest.length) := by
  intro rest
  induction rest with
  | nil =>
      intro outargs stack i hpre htot
      simp [closes, opens] at htot
      cases stack with
      | nil => simp at htot
      | cons top stackTail => simp [unbracketAux]
  | cons a rest ih =>
      intro outargs stack i hpre htot
      by_cases ha1 : a = "["
      · subst ha1
        have heq : unbracketAux ("[" :: rest) i outargs stack
            = unbracketAux rest (i + 1) [] (outargs :: stack) := by
          simp [unbracketAux]
        rw [heq, ih [] (outargs :: stack) (i + 1)
          (by
            intro k
            have h := hpre (k + 1)
            simp [List.take_succ_cons, closes, opens] at h ⊢
            omega)
          (by
            simp [closes, opens] at htot ⊢
            omega)]
        congr 1
        simp [List.length_cons]
        omega
      · by_cases ha2 : a = "]"
        · subst ha2
          have hlen : 1 ≤ stack.length := by
            have h := hpre 1
            simp [closes, opens] at h
            omega
          cases stack with
          | nil => simp at hlen
          | cons top stackTail =>
              have heq : unbracketAux ("]" :: rest) i outargs (top :: stackTail)
                  = unbracketAux rest (i + 1) (top ++ [PyObj.list outargs]) stackTail := by
                simp [unbracketAux]
              rw [heq, ih (top ++ [PyObj.list outargs]) stackTail (i + 1)
                (by
                  intro k
                  have h := hpre (k + 1)
                  simp [List.take_succ_cons, closes, opens] at h ⊢
                  omega)
                (by
                  simp [closes, opens] at htot ⊢
                  omega)]
              congr 1
              simp [List.length_cons]
              omega
        · have heq : unbracketAux (a :: rest) i outargs stack
              = unbracketAux rest (i + 1) (outargs ++ [PyObj.str a]) stack := by
            simp [unbracketAux, ha1, ha2]
          rw [heq, ih (outargs ++ [PyObj.str a]) stack (i + 1)
            (by
              intro k
              have h := hpre (k + 1)
              simp [List.take_succ_cons, closes, opens, ha1, ha2] at h ⊢
              omega)
            (by
              simp [closes, opens, ha1, ha2] at htot ⊢
              omega)]
          congr 1
          simp [List.length_cons]
          omega

/-! Claim C1. -/

/-- C1: for every token list on which unbracket succeeds (balanced
brackets), flattening the returned nested list reproduces the original
tokens in their original order: re-emitting the bracket markers around each
nested list gives back exactly the input (structure-preserving round trip),
and the traversal that drops the bracket markers gives back exactly the
input tokens minus the bracket markers, in order. -/
theorem unbracket_flatten_round_trip (tokens : List String) (items : List PyObj)
    (h : unbracket tokens = .ok items) :
    flattenKeep items = tokens ∧ flattenDrop items = removeBrackets tokens := by
  constructor
  · have := unbracketAux_flattenKeep tokens 0 [] [] items h
    simpa [stackCtx, flattenKeep] using this
  · have := unbracketAux_flattenDrop tokens 0 [] [] items h
    simpa [stackCtxD, flattenDrop] using this

/-- Witness for C1 at the docstring example
'foo [ bar a b ] [ baz c ] -o z'. -/
theorem unbracket_flatten_round_trip_witness :
    flattenKeep [PyObj.str "foo", PyObj.list [PyObj.str "bar", PyObj.str "a", PyObj.str "b"],
        PyObj.list [PyObj.str "baz", PyObj.str "c"], PyObj.str "-o", PyObj.str "z"]
      = ["foo", "[", "bar", "a", "b", "]", "[", "baz", "c", "]", "-o", "z"] ∧
    flattenDrop [PyObj.str "foo", PyObj.list [PyObj.str "bar", PyObj.str "a", PyObj.str "b"],
        PyObj.list [PyObj.str "baz", PyObj.str "c"], PyObj.str "-o", PyObj.str "z"]
      = removeBrackets ["foo", "[", "bar", "a", "b", "]", "[", "baz", "c", "]", "-o", "z"] :=
  unbracket_flatten_round_trip
    ["foo", "[", "bar", "a", "b", "]", "[", "baz", "c", "]", "-o", "z"]
    [PyObj.str "foo", PyObj.list [PyObj.str "bar", PyObj.str "a", PyObj.str "b"],
      PyObj.list [PyObj.str "baz", PyObj.str "c"], PyObj.str "-o", PyObj.str "z"]
    (by rfl)

/-! Claim C2. -/

/-- C2: unbracket signals a Mismatched Bracket error carrying the offending
position: meeting ']' when no bracket is open errors at that token's
position, and ending the scan with an unclosed '[' errors at the input
length; in particular ['a', ']'] errors at position 1 and ['a', '[']
errors at position 2, and every balanced input parses without error. -/
theorem unbracket_mismatch_positions :
    unbracket ["a", "]"] = .error 1 ∧
    unbracket ["a", "["] = .error 2 ∧
    (∀ ts, Balanced ts → ∃ items, unbracket ts = .ok items) ∧
    (∀ ts j, ts[j]? = some "]" →
        (∀ k, k ≤ j → closes (ts.take k) ≤ opens (ts.take k)) →
        closes (ts.take j) = opens (ts.take j) →
        unbracket ts = .error j) ∧
    (∀ ts, (∀ k, closes (ts.take k) ≤ opens (ts.take k)) →
        closes ts < opens ts →
        unbracket ts = .error ts.length) := by
  refine ⟨rfl, rfl, ?_, ?_, ?_⟩
  · intro ts hb
    exact unbracketAux_ok ts [] [] 0 (by simpa using hb.1) (by simpa using hb.2)
  · intro ts j hj hpre hj0
    have := unbracketAux_closeErr ts j [] [] 0 hj (by simpa using hpre)
      (by simpa using hj0)
    simpa [unbracket] using this
  · intro ts hpre htot
    have := unbracketAux_openErr ts [] [] 0 (by simpa using hpre)
      (by simpa using htot)
    simpa [unbracket] using this

/-- Witness for C2: the close-mismatch clause applied at ['a', ']'],
position 1. -/
theorem unbracket_mismatch_positions_witness :
    unbracket ["a", "]"] = .error 1 :=
  unbracket_mismatch_positions.2.2.2.1 ["a", "]"] 1 (by decide) (by decide)
    (by decide)

/-! Claim C3. -/

/-- C3 counterexample: take x already a carrier (x = ObjectAsStr(obj 0)).
Re-wrapping does return the identical carrier, but that carrier's
original_object is obj 0, which is not x itself — so the claim's clause
"that carrier's wrapped original_object is x itself" fails for carrier
inputs. -/
theorem objAsStr_rewrap_original_counterexample :
    (ObjectAsStr.new (ObjectAsStr.new (PyObj.obj 0) none) none
        = ObjectAsStr.new (PyObj.obj 0) none) ∧
    (ObjectAsStr.new (PyObj.obj 0) none).original_object? = some (PyObj.obj 0) ∧
    PyObj.obj 0 ≠ ObjectAsStr.new (PyObj.obj 0) none := by
  refine ⟨rfl, rfl, ?_⟩
  simp [ObjectAsStr.new, object2name, typeName, pyId]

/-- C3 amended: wrapping is idempotent for every x — ObjectAsStr(ObjectAsStr(x))
is the identical carrier ObjectAsStr(x) — and the carrier's wrapped
original_object is x itself whenever x is not already a carrier; when x is
a carrier the wrapped object is x's own original object, so no double
indirection is ever created. -/
theorem objAsStr_wrap_idempotent (x : PyObj) (name name' : Option String) :
    (ObjectAsStr.new (ObjectAsStr.new x name) name' = ObjectAsStr.new x name) ∧
    (x.isCarrier = false → (ObjectAsStr.new x name).original_object? = some x) ∧
    (∀ n o, x = PyObj.objAsStr n o →
        (ObjectAsStr.new x name).original_object? = some o) := by
  refine ⟨?_, ?_, ?_⟩
  · cases x <;> rfl
  · intro h
    cases x <;> simp_all [PyObj.isCarrier, ObjectAsStr.new, PyObj.original_object?]
  · intro n o h
    subst h
    rfl

/-- Witness for C3 at the non-carrier input obj 5. -/
theorem objAsStr_wrap_idempotent_witness :
    (ObjectAsStr.new (ObjectAsStr.new (PyObj.obj 5) none) none
        = ObjectAsStr.new (PyObj.obj 5) none) ∧
    (ObjectAsStr.new (PyObj.obj 5) none).original_object? = some (PyObj.obj 5) :=
  ⟨(objAsStr_wrap_idempotent (PyObj.obj 5) none none).1,
   (objAsStr_wrap_idempotent (PyObj.obj 5) none none).2.1 rfl⟩

/-! Claim C6. -/

/-- C6 counterexample: a carrier wrapping the plain string "p".  The claim
says the wrapped object passes through unchanged with no converter applied;
the code unwraps and, since the unwrapped value is a str, applies the
converter to it — here producing obj 7 instead of the string "p". -/
theorem maybe_coerce_with_counterexample :
    maybe_coerce_with (fun _ => PyObj.obj 7) (PyObj.objAsStr "<s>" (PyObj.str "p"))
      = PyObj.obj 7 ∧
    PyObj.obj 7 ≠ PyObj.str "p" := by
  exact ⟨rfl, by simp⟩

/-- C6 amended: maybe_coerce_with first unwraps a carrier to its wrapped
object and applies the converter exactly when the value after unwrapping is
a str: a carrier wrapping a non-string object passes through unchanged with
no conversion, a plain string is converted, a carrier wrapping a plain
string is unwrapped and the wrapped string converted, and a bare non-string
object passes through unchanged. -/
theorem maybe_coerce_with_unwraps_then_converts (convert : PyObj → PyObj) :
    (∀ n x, x.isStr = false →
        maybe_coerce_with convert (PyObj.objAsStr n x) = x) ∧
    (∀ s, maybe_coerce_with convert (PyObj.str s) = convert (PyObj.str s)) ∧
    (∀ n s, maybe_coerce_with convert (PyObj.objAsStr n (PyObj.str s))
        = convert (PyObj.str s)) ∧
    (∀ i, maybe_coerce_with convert (PyObj.obj i) = PyObj.obj i) ∧
    (∀ ts, maybe_coerce_with convert (PyObj.list ts) = PyObj.list ts) := by
  refine ⟨?_, ?_, ?_, ?_, ?_⟩
  · intro n x h
    cases x <;> simp_all [maybe_coerce_with, PyObj.isStr]
  · intro s; rfl
  · intro n s; rfl
  · intro i; rfl
  · intro ts; rfl

/-- Witness for C6: a carrier wrapping the non-string obj 3 passes through
unchanged. -/
theorem maybe_coerce_with_unwraps_then_converts_witness :
    maybe_coerce_with (fun _ => PyObj.obj 7) (PyObj.objAsStr "<c>" (PyObj.obj 3))
      = PyObj.obj 3 :=
  (maybe_coerce_with_unwraps_then_converts (fun _ => PyObj.obj 7)).1
    "<c>" (PyObj.obj 3) rfl

/-! Claim C7. -/

/-- C7: with_output persists the wrapped invocation's result to the supplied
output destination and returns no value (Python None); with no output
destination it persists nothing and returns the in-memory result
untouched. -/
theorem with_output_contract (wrapped : List PyObj → PyObj) (args : List PyObj)
    (path : String) (h : path ≠ "") :
    with_output wrapped args (some path)
      = { saved := [(wrapped args, path)], ret := none } ∧
    with_output wrapped args none
      = { saved := [], ret := some (wrapped args) } := by
  constructor
  · simp [with_output, pyTruthy, bne_eq_false_iff_eq, h]
  · rfl

/-- Witness for C7 at output destination "out.nc". -/
theorem with_output_contract_witness :
    with_output (fun _ => PyObj.obj 1) [] (some "out.nc")
      = { saved := [(PyObj.obj 1, "out.nc")], ret := none } ∧
    with_output (fun _ => PyObj.obj 1) [] none
      = { saved := [], ret := some (PyObj.obj 1) } :=
  with_output_contract (fun _ => PyObj.obj 1) [] "out.nc" (by decide)

/-! Claim C8. -/

/-- C8: the two spellings are NOT equivalent in the code.  With
['--output', 'out.nc'] the loop counter of the matching element is i = 1
(enumerate starts at 1), and the code reads args[i + 1] = args[2], which
does not exist, so the extracted destination is '' — not 'out.nc' as the
'=' spelling gives; with ['--output', 'a', 'b'] it extracts 'b', the token
two places after '--output', instead of 'a'.  This off-by-one contradicts
the claimed "token immediately following --output". -/
theorem preprocess_output_off_by_one :
    preprocess_command "improver" "cmd" ["--output", "out.nc"]
      = ("cmd", ["--output", "out.nc"], ["--output", ""]) ∧
    preprocess_command "improver" "cmd" ["--output=out.nc"]
      = ("cmd", ["--output=out.nc"], ["--output", "out.nc"]) ∧
    preprocess_command "improver" "cmd" ["--output", "a", "b"]
      = ("cmd", ["--output", "a", "b"], ["--output", "b"]) ∧
    ("" : String) ≠ "out.nc" := by
  refine ⟨rfl, rfl, rfl, by decide⟩

/-! Helper lemmas for the Composition Evaluator claims. -/

theorem wrapIfNotStr_isStr (x : PyObj) : (wrapIfNotStr x).isStr = true := by
  cases x <;> simp [wrapIfNotStr, PyObj.isStr, ObjectAsStr.new]

theorem processArgs_resolve (disp : List PyObj → PyObj) :
    ∀ args : List PyObj,
      processArgs disp false args = (resolveList disp args, invocationLog disp args) := by
  intro args
  induction args using processArgs.induct disp false with
  | case1 => simp [processArgs, resolveList, invocationLog]
  | case2 ts rest ih1 ih2 =>
      simp [processArgs, resolveList, invocationLog, ih1, ih2]
  | case3 a rest h ih =>
      cases a with
      | list ts => exact absurd rfl (h ts)
      | str s => simp [processArgs, resolveList, invocationLog, ih]
      | objAsStr n o => simp [processArgs, resolveList, invocationLog, ih]
      | obj i => simp [processArgs, resolveList, invocationLog, ih]

theorem processArgs_dry (disp : List PyObj → PyObj) :
    ∀ args : List PyObj, processArgs disp true args = (dryEcho args, []) := by
  intro args
  induction args using processArgs.induct disp true with
  | case1 => simp [processArgs, dryEcho]
  | case2 ts rest ih1 ih2 =>
      simp [processArgs, dryEcho, ih1, ih2]
  | case3 a rest h ih =>
      cases a with
      | list ts => exact absurd rfl (h ts)
      | str s => simp [processArgs, dryEcho, ih]
      | objAsStr n o => simp [processArgs, dryEcho, ih]
      | obj i => simp [processArgs, dryEcho, ih]

theorem resolveList_all_str (disp : List PyObj → PyObj) :
    ∀ args : List PyObj, ∀ x ∈ resolveList disp args, x.isStr = true := by
  intro args
  induction args using resolveList.induct disp with
  | case1 => simp [resolveList]
  | case2 ts rest ih1 ih2 =>
      intro x hx
      simp only [resolveList] at hx
      rcases List.mem_cons.mp hx with h | h
      · subst h; exact wrapIfNotStr_isStr _
      · exact ih2 x h
  | case3 a rest h ih =>
      intro x hx
      cases a with
      | list ts => exact absurd rfl (h ts)
      | str s =>
          rcases List.mem_cons.mp (by simpa [resolveList] using hx) with h1 | h1
          · subst h1; exact wrapIfNotStr_isStr _
          · exact ih x h1
      | objAsStr n o =>
          rcases List.mem_cons.mp (by simpa [resolveList] using hx) with h1 | h1
          · subst h1; exact wrapIfNotStr_isStr _
          · exact ih x h1
      | obj i =>
          rcases List.mem_cons.mp (by simpa [resolveList] using hx) with h1 | h1
          · subst h1; exact wrapIfNotStr_isStr _
          · exact ih x h1

theorem invocationLog_entries (disp : List PyObj → PyObj) :
    ∀ args : List PyObj, ∀ l ∈ invocationLog disp args,
      ∃ ts, l = resolveList disp ts := by
  intro args
  induction args using invocationLog.induct disp with
  | case1 => simp [invocationLog]
  | case2 ts rest ih1 ih2 =>
      intro l hl
      simp only [invocationLog, List.append_assoc, List.mem_append,
        List.mem_singleton] at hl
      rcases hl with h | h | h
      · exact ih1 l h
      · exact ⟨ts, h⟩
      · exact ih2 l h
  | case3 a rest h ih =>
      intro l hl
      cases a with
      | list ts => exact absurd rfl (h ts)
      | str s => exact ih l (by simpa [invocationLog] using hl)
      | objAsStr n o => exact ih l (by simpa [invocationLog] using hl)
      | obj i => exact ih l (by simpa [invocationLog] using hl)

/-! Claim C4. -/

/-- C4: execute_command resolves nested sub-invocations innermost first and
siblings left to right: the dispatcher-invocation log of an argument list
is, elementwise left to right, the log of each nested element (its own
sub-invocations first, then the element's single own invocation), with the
enclosing invocation's entry strictly last; and for the command line
cmd_outer [ cmd_inner a b ] c, cmd_inner's argument list is dispatched
exactly once, before cmd_outer's, and cmd_outer's dispatch receives the
carrier of the inner result followed by "c". -/
theorem execute_command_ordering :
    (∀ (disp : List PyObj → PyObj) (args : List PyObj),
        execute_command disp false args
          = (disp (resolveList disp args),
             invocationLog disp args ++ [resolveList disp args])) ∧
    (∀ disp : List PyObj → PyObj,
        (disp [PyObj.str "cmd_inner", PyObj.str "a", PyObj.str "b"]).isStr = false →
        execute_command disp false
            [PyObj.str "cmd_outer",
             PyObj.list [PyObj.str "cmd_inner", PyObj.str "a", PyObj.str "b"],
             PyObj.str "c"]
          = (disp [PyObj.str "cmd_outer",
                ObjectAsStr.new (disp [PyObj.str "cmd_inner", PyObj.str "a", PyObj.str "b"]) none,
                PyObj.str "c"],
             [[PyObj.str "cmd_inner", PyObj.str "a", PyObj.str "b"],
              [PyObj.str "cmd_outer",
               ObjectAsStr.new (disp [PyObj.str "cmd_inner", PyObj.str "a", PyObj.str "b"]) none,
               PyObj.str "c"]])) := by
  have hmain : ∀ (disp : List PyObj → PyObj) (args : List PyObj),
      execute_command disp false args
        = (disp (resolveList disp args),
           invocationLog disp args ++ [resolveList disp args]) := by
    intro disp args
    simp [execute_command, processArgs_resolve]
  refine ⟨hmain, ?_⟩
  intro disp hs
  rw [hmain]
  have hstr : ∀ t : String, (PyObj.str t).isStr = true := fun _ => rfl
  simp [resolveList, invocationLog, wrapIfNotStr, hs, hstr]

/-- Witness for C4 with a dispatcher returning the non-string obj 0. -/
theorem execute_command_ordering_witness :
    execute_command (fun _ => PyObj.obj 0) false
        [PyObj.str "cmd_outer",
         PyObj.list [PyObj.str "cmd_inner", PyObj.str "a", PyObj.str "b"],
         PyObj.str "c"]
      = (PyObj.obj 0,
         [[PyObj.str "cmd_inner", PyObj.str "a", PyObj.str "b"],
          [PyObj.str "cmd_outer", PyObj.objAsStr "<builtins.object@0>" (PyObj.obj 0),
           PyObj.str "c"]]) :=
  execute_command_ordering.2 (fun _ => PyObj.obj 0) rfl

/-! Claim C5. -/

/-- C5: with dry_run enabled, execute_command never invokes the dispatcher —
its invocation log is empty and its result does not depend on the
dispatcher at all — and it returns (echoes) the argument list itself, with
nested lists kept as literal (recursively echoed) list structures rather
than substituted command results. -/
theorem execute_command_dry_run (disp : List PyObj → PyObj) (args : List PyObj) :
    execute_command disp true args = (PyObj.list (dryEcho args), []) := by
  simp [execute_command, processArgs_dry]

/-! Claim C9. -/

/-- C9: every element of every argument list handed to the dispatcher by
execute_command's normalization pass is a string in Python's sense — a
plain str or an ObjectAsStr carrier (itself a str) — and the pass leaves a
carrier element untouched (it is never re-wrapped). -/
theorem execute_command_dispatch_all_str (disp : List PyObj → PyObj)
    (args : List PyObj) :
    (∀ l ∈ (execute_command disp false args).2, ∀ x ∈ l, x.isStr = true) ∧
    (∀ (dry : Bool) (n : String) (o : PyObj) (rest : List PyObj),
        processArgs disp dry (PyObj.objAsStr n o :: rest)
          = (PyObj.objAsStr n o :: (processArgs disp dry rest).1,
             (processArgs disp dry rest).2)) := by
  constructor
  · intro l hl
    rw [execute_command_ordering.1] at hl
    simp only [List.mem_append, List.mem_singleton] at hl
    rcases hl with h | h
    · obtain ⟨ts, rfl⟩ := invocationLog_entries disp args l h
      exact resolveList_all_str disp ts
    · subst h
      exact resolveList_all_str disp args
  · intro dry n o rest
    simp [processArgs, wrapIfNotStr, PyObj.isStr]

/-- Witness for C9: in the dispatch of ["c", carrier], the carrier element
is a str and arrives untouched. -/
theorem execute_command_dispatch_all_str_witness :
    (PyObj.objAsStr "<x>" (PyObj.obj 0)).isStr = true :=
  (execute_command_dispatch_all_str (fun _ => PyObj.obj 1)
      [PyObj.str "c", PyObj.objAsStr "<x>" (PyObj.obj 0)]).1
    [PyObj.str "c", PyObj.objAsStr "<x>" (PyObj.obj 0)]
    (by
      rw [execute_command_ordering.1]
      simp [resolveList, invocationLog, wrapIfNotStr, PyObj.isStr])
    (PyObj.objAsStr "<x>" (PyObj.obj 0))
    (by simp)

/-! Claim C10. -/

theorem nowcastAfterVelocity_ne_mixed (steps : List String)
    (mlt lti af : Nat) :
    (nowcastAfterVelocity steps mlt lti af).2
      ≠ Except.error NowcastError.mixedVelocities := by
  unfold nowcastAfterVelocity
  split <;> simp

/-- C10: nowcast_extrapolate.process raises the ValueError 'Cannot mix
advection component velocities with speed and direction' — running none of
the extrapolation collaborators — unless exactly one of the two velocity
specifications is supplied (speed and direction with both components
absent, or both components with speed and direction absent); when exactly
one is supplied that error is not raised. -/
theorem nowcast_velocity_guard (u v s d : Bool) (mlt lti af : Nat) :
    (¬ exactlyOneVelocitySpec u v s d →
        nowcast_process u v s d mlt lti af
          = ([], .error NowcastError.mixedVelocities) ∧
        NowcastError.message NowcastError.mixedVelocities
          = "Cannot mix advection component velocities with speed and direction") ∧
    (exactlyOneVelocitySpec u v s d →
        (nowcast_process u v s d mlt lti af).2
          ≠ .error NowcastError.mixedVelocities) := by
  constructor
  · intro h
    refine ⟨?_, rfl⟩
    cases u <;> cases v <;> cases s <;> cases d <;>
      simp_all [exactlyOneVelocitySpec, nowcast_process]
  · intro h
    cases u <;> cases v <;> cases s <;> cases d <;>
      simp_all [exactlyOneVelocitySpec, nowcast_process] <;>
      exact nowcastAfterVelocity_ne_mixed _ _ _ _

/-- Witness for C10: supplying u with both speed and direction (a mix)
raises the mixed-velocities error before any extrapolation step. -/
theorem nowcast_velocity_guard_witness :
    nowcast_process true false true true 360 15 0
      = ([], .error NowcastError.mixedVelocities) ∧
    NowcastError.message NowcastError.mixedVelocities
      = "Cannot mix advection component velocities with speed and direction" :=
  (nowcast_velocity_guard true false true true 360 15 0).1
    (by simp [exactlyOneVelocitySpec])

end Improver
